import Mathlib

/-!
Verification of the Gaia secrets-management daemon (Go) against its
natural-language specification.

The Go sources are shallowly embedded: byte strings become `List Nat`
(each element a byte value), the BoltDB buckets become association
lists, the daemon struct becomes a Lean structure, and the external
AES-GCM cipher is a parameter carrying the library's documented
contract.  Randomness (the AEAD nonce drawn inside `Encrypt`) is made
an explicit argument.
-/

namespace Gaia

/-- Byte strings: Go `[]byte` / `string` values. -/
abbrev Bytes := List Nat

/-! ## Bucket model (BoltDB bucket as an association list)

A BoltDB bucket maps byte-string keys to byte-string values.  `bget`,
`bput`, `bdel` model `Bucket.Get`, `Bucket.Put`, `Bucket.Delete`. -/

/-- `Bucket.Get`: first binding of the key, `none` when absent. -/
def bget : List (Bytes × Bytes) → Bytes → Option Bytes
  | [], _ => none
  | (k', v) :: rest, k => if k = k' then some v else bget rest k

/-- `Bucket.Put`: replace the binding in place, or append a new one. -/
def bput : List (Bytes × Bytes) → Bytes → Bytes → List (Bytes × Bytes)
  | [], k, v => [(k, v)]
  | (k', v') :: rest, k, v =>
      if k = k' then (k, v) :: rest else (k', v') :: bput rest k v

/-- `Bucket.Delete`: remove every binding of the key (no error when absent). -/
def bdel : List (Bytes × Bytes) → Bytes → List (Bytes × Bytes)
  | [], _ => []
  | (k', v') :: rest, k => if k' = k then bdel rest k else (k', v') :: bdel rest k

theorem bget_bput_self (b : List (Bytes × Bytes)) (k v : Bytes) :
    bget (bput b k v) k = some v := by
  induction b with
  | nil => simp [bput, bget]
  | cons hd tl ih =>
      by_cases h : k = hd.1
      · simp [bput, bget, h]
      · simp [bput, bget, h, ih]

theorem bget_bput_ne (b : List (Bytes × Bytes)) (k k' v : Bytes) (h : k ≠ k') :
    bget (bput b k' v) k = bget b k := by
  induction b with
  | nil => simp [bput, bget, h]
  | cons hd tl ih =>
      by_cases h2 : k' = hd.1
      · subst h2
        simp [bput, bget, h]
      · by_cases h3 : k = hd.1
        · simp [bput, bget, h2, h3]
        · simp [bput, bget, h2, h3, ih]

theorem bget_bput_isSome (b : List (Bytes × Bytes)) (k k' v : Bytes)
    (h : (bget b k).isSome) : (bget (bput b k' v) k).isSome := by
  by_cases hk : k = k'
  · subst hk; simp [bget_bput_self]
  · rwa [bget_bput_ne b k k' v hk]

theorem bget_bdel_ne (b : List (Bytes × Bytes)) (k k' : Bytes) (h : k ≠ k') :
    bget (bdel b k') k = bget b k := by
  induction b with
  | nil => simp [bdel, bget]
  | cons hd tl ih =>
      obtain ⟨hk, hv⟩ := hd
      by_cases h2 : hk = k'
      · have h4 : k ≠ hk := by rw [h2]; exact h
        simp [bdel, h2, bget, h4, h, ih]
      · by_cases h3 : k = hk
        · simp [bdel, h2, bget, h3]
        · simp [bdel, h2, bget, h3, ih]

/-! ## Base64 (Go `encoding/base64` StdEncoding)

`base64.StdEncoding.EncodeToString` / `DecodeString` as used by
`Encrypt` / `Decrypt` in `apps/gaia/encrypt`.  Newline-skipping of the
Go decoder is not modelled (no encoded ciphertext contains newlines). -/

/-- Standard base64 alphabet: sextet value → ASCII code. -/
def b64char (n : Nat) : Nat :=
  if n < 26 then 65 + n
  else if n < 52 then 97 + (n - 26)
  else if n < 62 then 48 + (n - 52)
  else if n = 62 then 43
  else 47

/-- Inverse alphabet: ASCII code → sextet value, `none` on a foreign byte. -/
def b64val (c : Nat) : Option Nat :=
  if 65 ≤ c ∧ c ≤ 90 then some (c - 65)
  else if 97 ≤ c ∧ c ≤ 122 then some (c - 97 + 26)
  else if 48 ≤ c ∧ c ≤ 57 then some (c - 48 + 52)
  else if c = 43 then some 62
  else if c = 47 then some 63
  else none

/-- ASCII code of the padding character. -/
def padChar : Nat := 61

/-- `base64.StdEncoding.EncodeToString`. -/
def b64encode : Bytes → Bytes
  | [] => []
  | [b0] => [b64char (b0 / 4), b64char (b0 % 4 * 16), padChar, padChar]
  | [b0, b1] => [b64char (b0 / 4), b64char (b0 % 4 * 16 + b1 / 16),
                 b64char (b1 % 16 * 4), padChar]
  | b0 :: b1 :: b2 :: rest =>
      b64char (b0 / 4) :: b64char (b0 % 4 * 16 + b1 / 16) ::
      b64char (b1 % 16 * 4 + b2 / 64) :: b64char (b2 % 64) :: b64encode rest

/-- `base64.StdEncoding.DecodeString`: quads with terminal padding only;
any other shape is a `CorruptInputError`. -/
def b64decode : Bytes → Option Bytes
  | [] => some []
  | c0 :: c1 :: c2 :: c3 :: rest =>
      match b64val c0, b64val c1 with
      | some s0, some s1 =>
          if c2 = padChar then
            if c3 = padChar ∧ rest = [] then some [s0 * 4 + s1 / 16] else none
          else
            match b64val c2 with
            | some s2 =>
                if c3 = padChar then
                  if rest = [] then
                    some [s0 * 4 + s1 / 16, s1 % 16 * 16 + s2 / 4]
                  else none
                else
                  match b64val c3 with
                  | some s3 =>
                      (b64decode rest).map (fun tail =>
                        (s0 * 4 + s1 / 16) :: (s1 % 16 * 16 + s2 / 4) ::
                        (s2 % 4 * 64 + s3) :: tail)
                  | none => none
            | none => none
      | _, _ => none
  | _ => none

theorem b64val_b64char : ∀ s : Nat, s < 64 → b64val (b64char s) = some s := by
  decide

theorem b64char_ne_pad : ∀ s : Nat, s < 64 → b64char s ≠ padChar := by
  decide

/-- Decoding inverts encoding on genuine byte strings. -/
theorem b64_roundtrip : ∀ l : Bytes, (∀ b ∈ l, b < 256) →
    b64decode (b64encode l) = some l
  | [], _ => by simp [b64encode, b64decode]
  | [b0], h => by
      have hb0 : b0 < 256 := h b0 (by simp)
      have h1 : b0 / 4 < 64 := by omega
      have h2 : b0 % 4 * 16 < 64 := by omega
      simp [b64encode, b64decode, b64val_b64char _ h1, b64val_b64char _ h2,
        padChar]
      omega
  | [b0, b1], h => by
      have hb0 : b0 < 256 := h b0 (by simp)
      have hb1 : b1 < 256 := h b1 (by simp)
      have h1 : b0 / 4 < 64 := by omega
      have h2 : b0 % 4 * 16 + b1 / 16 < 64 := by omega
      have h3 : b1 % 16 * 4 < 64 := by omega
      simp [b64encode, b64decode, b64val_b64char _ h1, b64val_b64char _ h2,
        b64val_b64char _ h3, padChar,
        show b64char (b1 % 16 * 4) ≠ 61 from b64char_ne_pad _ h3]
      omega
  | [b0, b1, b2], h => by
      have hb0 : b0 < 256 := h b0 (by simp)
      have hb1 : b1 < 256 := h b1 (by simp)
      have hb2 : b2 < 256 := h b2 (by simp)
      have h1 : b0 / 4 < 64 := by omega
      have h2 : b0 % 4 * 16 + b1 / 16 < 64 := by omega
      have h3 : b1 % 16 * 4 + b2 / 64 < 64 := by omega
      have h4 : b2 % 64 < 64 := by omega
      simp [b64encode, b64decode, b64val_b64char _ h1, b64val_b64char _ h2,
        b64val_b64char _ h3, b64val_b64char _ h4, padChar,
        show b64char (b1 % 16 * 4 + b2 / 64) ≠ 61 from b64char_ne_pad _ h3,
        show b64char (b2 % 64) ≠ 61 from b64char_ne_pad _ h4]
      omega
  | b0 :: b1 :: b2 :: b3 :: rest, h => by
      have hb0 : b0 < 256 := h b0 (by simp)
      have hb1 : b1 < 256 := h b1 (by simp)
      have hb2 : b2 < 256 := h b2 (by simp)
      have ih := b64_roundtrip (b3 :: rest)
        (fun b hb => h b (by simp at hb ⊢; tauto))
      have h1 : b0 / 4 < 64 := by omega
      have h2 : b0 % 4 * 16 + b1 / 16 < 64 := by omega
      have h3 : b1 % 16 * 4 + b2 / 64 < 64 := by omega
      have h4 : b2 % 64 < 64 := by omega
      simp [b64encode, b64decode, b64val_b64char _ h1, b64val_b64char _ h2,
        b64val_b64char _ h3, b64val_b64char _ h4, padChar,
        show b64char (b1 % 16 * 4 + b2 / 64) ≠ 61 from b64char_ne_pad _ h3,
        show b64char (b2 % 64) ≠ 61 from b64char_ne_pad _ h4, ih]
      omega

/-! ## Error taxonomy

One constructor per distinct error produced by the embedded Go paths;
the names follow the spec's taxonomy (§7), each mapped from the Go
message it stands for. -/

inductive GErr
  | keySize            -- aes.NewCipher: invalid key size
  | corruptBase64      -- base64.CorruptInputError
  | authFailed         -- cipher: message authentication failed (gcm.Open)
  | daemonLocked       -- "daemon is locked" / "daemon is in a locked state"
  | dbNotOpen          -- "database not open"
  | bucketNotFound     -- "bucket not found"
  | saltNotFound       -- "salt not found"
  | keyHashNotFound    -- "key hash not found for validation"
  | invalidPassphrase  -- "invalid passphrase"
  | unauthorized       -- "permission denied: client ... not authorized ..."
  | notFound           -- "secret not found"
  | decryptFailed      -- "failed to decrypt secret: ..."
  | encryptFailed      -- "failed to encrypt secret: ..."
  | conflict           -- "secret ... already exists. Use --overwrite ..."
  | alreadyInitialized -- "database already exists"
  | weakPassphrase     -- init passphrase rejected (length or entropy floor)
  | caLoadFailed       -- "failed to load CA credentials: ..."
  | noIdentity         -- "could not identify client: ..."
  | keyRequired        -- bbolt ErrKeyRequired: Put with a blank key
  deriving DecidableEq, Repr

/-! ## AES-256-GCM envelope (`apps/gaia/encrypt`, part_003)

`crypto/cipher`'s GCM implementation is external to the repository, so
the sealed box itself is a parameter: `sealGCM key nonce pt` is
`gcm.Seal(nil, nonce, pt, nil)` and `openGCM key nonce ct` is
`gcm.Open(nil, nonce, ct, nil)`.  The repository's own code — envelope
layout `nonce ‖ sealed`, base64, key-size and length checks — is
embedded concretely. -/

structure AEAD where
  sealGCM : Bytes → Bytes → Bytes → Bytes
  openGCM : Bytes → Bytes → Bytes → Option Bytes

/-- `gcm.NonceSize()` for the standard GCM construction. -/
def gcmNonceSize : Nat := 12

/-- `encrypt.Encrypt(key, plaintext)`.  `nonce` is the byte string the
source draws from `rand.Reader` (length `gcmNonceSize`); randomness is
made an explicit argument. -/
def Encrypt (g : AEAD) (nonce key plaintext : Bytes) : Except GErr Bytes :=
  if key.length = 16 ∨ key.length = 24 ∨ key.length = 32 then
    .ok (b64encode (nonce ++ g.sealGCM key nonce plaintext))
  else
    .error .keySize

/-- `encrypt.Decrypt(key, enc)`. -/
def Decrypt (g : AEAD) (key enc : Bytes) : Except GErr Bytes :=
  match b64decode enc with
  | none => .error .corruptBase64
  | some ciphertext =>
      if key.length = 16 ∨ key.length = 24 ∨ key.length = 32 then
        if ciphertext.length < gcmNonceSize then
          -- Source: `if len(ciphertext) < gcm.NonceSize() { return nil, err }`
          -- where `err` is nil on this path, so the function returns a nil
          -- plaintext and a nil error: success with an empty value.
          .ok []
        else
          match g.openGCM key (ciphertext.take gcmNonceSize)
              (ciphertext.drop gcmNonceSize) with
          | some pt => .ok pt
          | none => .error .authFailed
      else
        .error .keySize

/-- A concrete cipher used to instantiate witnesses: sealing appends a
one-byte tag, opening checks and strips it. -/
def toyAEAD : AEAD where
  sealGCM := fun _ _ pt => pt ++ [7]
  openGCM := fun _ _ ct => if ct.getLast? = some 7 then some ct.dropLast else none

/-! ## Identifier validation (`libs/.../validation`, part_003) -/

/-- `[a-z0-9]` on a byte. -/
def isLowerOrDigit (c : Nat) : Bool :=
  (97 ≤ c && c ≤ 122) || (48 ≤ c && c ≤ 57)

/-- `[-_a-z0-9]` on a byte. -/
def isNameMid (c : Nat) : Bool :=
  isLowerOrDigit c || c = 45 || c = 95

/-- `validation.ValidateName`: match against
`^[a-z0-9]([-_a-z0-9]{0,61}[a-z0-9])?$` (`true` = accepted, Go returns
a nil error). -/
def ValidateName (name : Bytes) : Bool :=
  match name with
  | [] => false
  | [c] => isLowerOrDigit c
  | c :: rest =>
      isLowerOrDigit c && decide (rest.length ≤ 62) &&
      rest.dropLast.all isNameMid &&
      (match rest.getLast? with
       | some d => isLowerOrDigit d
       | none => true)

/-- The identifier grammar exactly as the spec words it: 1–63
characters, lowercase letters, digits, `-`, `_`, starting and ending
with a letter or digit.  Stated independently of `ValidateName` to
compare the two. -/
def specGoodName (name : Bytes) : Bool :=
  decide (1 ≤ name.length) && decide (name.length ≤ 63) &&
  name.all isNameMid &&
  (name.head?.elim false isLowerOrDigit) &&
  (name.getLast?.elim false isLowerOrDigit)

/-! ## Store constants (part_012) -/

/-- ASCII bytes of a string literal. -/
def strBytes (s : String) : Bytes := s.data.map Char.toNat

def metaPrefix : String := "gaia:internal:cmfk1rbd000000m74bic9evy3"

/-- Reserved `secrets`-bucket key holding the KDF salt. -/
def saltKey : Bytes := strBytes (metaPrefix ++ "__salt__")

/-- Reserved `secrets`-bucket key holding the SHA-256 of the master key. -/
def keyHashKey : Bytes := strBytes (metaPrefix ++ "__key_hash__")

/-- The literal client/namespace name `common`. -/
def commonNamespace : Bytes := strBytes "common"

/-- `constructDBKey`: the three components joined by single NUL bytes. -/
def constructDBKey (client namespc key : Bytes) : Bytes :=
  client ++ [0] ++ namespc ++ [0] ++ key

/-! ## Daemon state (part_012)

`Daemon.db` is `none` when the handle is nil or closed; `key = []`
stands for the nil/zeroised key slice.  The `status` string, mutexes
and the gRPC listener are not represented: the claims under proof do
not mention them, and lock-protected sections are embedded as atomic
functions. -/

structure DB where
  secrets : Option (List (Bytes × Bytes))
  clients : Option (List (Bytes × Bytes))
  deriving DecidableEq, Repr

structure Daemon where
  db : Option DB
  key : Bytes
  isLocked : Bool
  stopClosed : Bool
  deriving DecidableEq, Repr

/-- `NewDaemon`: locked, no database handle, stop channel open. -/
def NewDaemon : Daemon :=
  { db := none, key := [], isLocked := true, stopClosed := false }

/-- The lookup-and-decrypt tail of `Daemon.GetSecret` (runs after the
authorization decision). -/
def fetchSecret (g : AEAD) (key : Bytes) (db : DB) (dbKey : Bytes) :
    Except GErr Bytes :=
  match db.secrets with
  | none => .error .bucketNotFound
  | some b =>
      match bget b dbKey with
      | none => .error .notFound
      | some encValue =>
          match Decrypt g key encValue with
          | .ok v => .ok v
          | .error _ => .error .decryptFailed

/-- `Daemon.GetSecret(clientName, namespace, id)`. -/
def Daemon.GetSecret (g : AEAD) (d : Daemon) (clientName namespc id : Bytes) :
    Except GErr Bytes :=
  if d.isLocked then .error .daemonLocked
  else
    match d.db with
    | none => .error .dbNotOpen
    | some db =>
        if namespc ≠ commonNamespace ∧ namespc ≠ clientName then
          .error .unauthorized
        else
          let lookupClient :=
            if namespc = commonNamespace then commonNamespace else clientName
          fetchSecret g d.key db (constructDBKey lookupClient namespc id)

/-- `gaiaClientServer.GetSecret`: the caller identity is the peer
certificate common name (`none` when no verified peer identity is
available), never a request field. -/
def clientGetSecret (g : AEAD) (d : Daemon) (peerCN : Option Bytes)
    (namespc id : Bytes) : Except GErr Bytes :=
  match peerCN with
  | none => .error .noIdentity
  | some clientName => d.GetSecret g clientName namespc id

/-- `Daemon.AddSecret`.  `nonce` is the fresh randomness `Encrypt`
draws.  The pair is (result, post-state). -/
def Daemon.AddSecret (g : AEAD) (nonce : Bytes) (d : Daemon)
    (clientName namespc id value : Bytes) : Except GErr Unit × Daemon :=
  if d.isLocked ∨ d.db = none then (.error .daemonLocked, d)
  else
    match d.db with
    | none => (.error .daemonLocked, d)
    | some db =>
        let dbKey := constructDBKey clientName namespc id
        match Encrypt g nonce d.key value with
        | .error _ => (.error .encryptFailed, d)
        | .ok encValue =>
            let b := db.secrets.getD []
            (.ok (), { d with
              db := some { db with secrets := some (bput b dbKey encValue) } })

/-- `Daemon.DeleteSecret`: no error when the key (or the bucket) is
absent. -/
def Daemon.DeleteSecret (d : Daemon) (clientName namespc id : Bytes) :
    Except GErr Unit × Daemon :=
  if d.isLocked ∨ d.db = none then (.error .daemonLocked, d)
  else
    match d.db with
    | none => (.error .daemonLocked, d)
    | some db =>
        match db.secrets with
        | none => (.ok (), d)
        | some b =>
            (.ok (), { d with db := some { db with
              secrets := some (bdel b (constructDBKey clientName namespc id)) } })

/-- `Daemon.RegisterClient`: puts `clientName ↦ timestamp` into the
`clients` bucket (created if absent).  bbolt's `Bucket.Put` rejects a
blank key with `ErrKeyRequired`, and `RegisterClient` hands `Put` the
raw client name, so that error (aborting the transaction) is reachable
here; every other `Put` call site in the daemon passes a non-empty
key — a reserved-prefix key or a composed key containing NUL
delimiters — so the check cannot fire there. -/
def Daemon.RegisterClient (d : Daemon) (timestamp clientName : Bytes) :
    Except GErr Unit × Daemon :=
  if d.isLocked ∨ d.db = none then (.error .daemonLocked, d)
  else
    match d.db with
    | none => (.error .daemonLocked, d)
    | some db =>
        if clientName = [] then (.error .keyRequired, d)
        else
          let cb := db.clients.getD []
          (.ok (), { d with
            db := some { db with
              clients := some (bput cb clientName timestamp) } })

/-- `Daemon.RevokeClient`: one transaction removing the registration
and every secret whose key has prefix `clientName ‖ 0x00`. -/
def Daemon.RevokeClient (d : Daemon) (clientName : Bytes) :
    Except GErr Unit × Daemon :=
  if d.isLocked ∨ d.db = none then (.error .daemonLocked, d)
  else
    match d.db with
    | none => (.error .daemonLocked, d)
    | some db =>
        let clients' := match db.clients with
          | none => none
          | some cb => some (bdel cb clientName)
        let secrets' := match db.secrets with
          | none => none
          | some sb =>
              some (sb.filter (fun kv => !(clientName ++ [0]).isPrefixOf kv.1))
        (.ok (), { d with db := some { secrets := secrets', clients := clients' } })

/-! ## Bulk import (part_012 `Daemon.ImportSecrets`) -/

structure ImportSecretItem where
  clientName : Bytes
  namespc : Bytes
  id : Bytes
  value : Bytes
  deriving DecidableEq, Repr

/-- The loop body of the import transaction.  `count` doubles as the
index into the nonce stream and as `importedCount`. -/
def importLoop (g : AEAD) (key : Bytes) (overwrite : Bool) (nonces : Nat → Bytes) :
    List ImportSecretItem → Nat → List (Bytes × Bytes) →
    Except GErr (List (Bytes × Bytes) × Nat)
  | [], count, b => .ok (b, count)
  | item :: rest, count, b =>
      let k := constructDBKey item.clientName item.namespc item.id
      if overwrite = false ∧ (bget b k).isSome then .error .conflict
      else
        match Encrypt g (nonces count) key item.value with
        | .error _ => .error .encryptFailed
        | .ok encValue =>
            importLoop g key overwrite nonces rest (count + 1) (bput b k encValue)

/-- `Daemon.ImportSecrets`: the whole batch inside one `db.Update`; an
error from the loop rolls the transaction back (post-state = pre-state). -/
def Daemon.ImportSecrets (g : AEAD) (nonces : Nat → Bytes) (d : Daemon)
    (secrets : List ImportSecretItem) (overwrite : Bool) :
    Except GErr Nat × Daemon :=
  if d.isLocked ∨ d.db = none then (.error .daemonLocked, d)
  else
    match d.db with
    | none => (.error .daemonLocked, d)
    | some db =>
        let b := db.secrets.getD []
        match importLoop g d.key overwrite nonces secrets 0 b with
        | .error e => (.error e, d)
        | .ok (b', count) =>
            (.ok count, { d with db := some { db with secrets := some b' } })

/-! ## Lifecycle (part_012, part_015) -/

/-- `Daemon.InitializeDB(passphrase)`.  `existing` is the `os.Stat`
answer for the database file; `salt` the 16 random bytes drawn;
`timestamp` the registration time of `common`; `kdf`/`hashFn` stand for
`scrypt` and SHA-256, both external.  Returns the created database
file. -/
def Daemon.InitializeDB (kdf : Bytes → Bytes → Bytes) (hashFn : Bytes → Bytes)
    (salt timestamp : Bytes) (existing : Option DB) (passphrase : Bytes) :
    Except GErr DB :=
  match existing with
  | some _ => .error .alreadyInitialized
  | none =>
      let key := kdf passphrase salt
      let keyHash := hashFn key
      .ok { secrets := some (bput (bput [] saltKey salt) keyHashKey keyHash),
            clients := some (bput [] commonNamespace timestamp) }

/-- `Daemon.UnlockDB(passphrase)`: re-opens the database from disk,
validates the derived key against the stored hash, loads the CA
material (`caOk` = whether that load succeeds) and unlocks.  The
source never consults `d.isLocked` here: the sequence runs from any
state, including an already-unlocked one. -/
def Daemon.UnlockDB (kdf : Bytes → Bytes → Bytes) (hashFn : Bytes → Bytes)
    (disk : DB) (caOk : Bool) (d : Daemon) (passphrase : Bytes) :
    Except GErr Unit × Daemon :=
  match disk.secrets with
  | none => (.error .bucketNotFound, { d with db := none })
  | some b =>
      match bget b saltKey with
      | none => (.error .saltNotFound, { d with db := none })
      | some salt =>
          match bget b keyHashKey with
          | none => (.error .keyHashNotFound, { d with db := none })
          | some storedHash =>
              let derivedKey := kdf passphrase salt
              if hashFn derivedKey ≠ storedHash then
                (.error .invalidPassphrase, { d with db := none })
              else if caOk = false then
                (.error .caLoadFailed, { d with db := none, key := [] })
              else
                (.ok (), { d with db := some disk, key := derivedKey,
                                  isLocked := false })

/-- `gaiaAdminServer.Unlock`: delegates to `UnlockDB` with no
state gating; replies `Success=true` exactly when `UnlockDB`
returns nil. -/
def adminUnlock (kdf : Bytes → Bytes → Bytes) (hashFn : Bytes → Bytes)
    (disk : DB) (caOk : Bool) (d : Daemon) (passphrase : Bytes) :
    Except GErr Bool × Daemon :=
  match Daemon.UnlockDB kdf hashFn disk caOk d passphrase with
  | (.error e, d') => (.error e, d')
  | (.ok (), d') => (.ok true, d')

/-- `close(ch)` on a Go channel: `none` models the runtime panic on a
second close. -/
def closeChan (closed : Bool) : Option Bool :=
  if closed then none else some true

/-- `gaiaAdminServer.Stop`: unconditionally closes the stop channel,
then replies `Success=true`.  `none` = the handler panics. -/
def adminStop (d : Daemon) : Option (Daemon × Bool) :=
  match closeChan d.stopClosed with
  | none => none
  | some c => some ({ d with stopClosed := c }, true)

/-! ## Passphrase strength and the init command (part_015,
`apps/gaia/encrypt/utils.go`) -/

def isLowerByte (c : Nat) : Bool := 97 ≤ c && c ≤ 122
def isUpperByte (c : Nat) : Bool := 65 ≤ c && c ≤ 90
def isDigitByte (c : Nat) : Bool := 48 ≤ c && c ≤ 57

/-- Modelled from the spec: the entropy estimator of the external
`go-password-validator` dependency (its source is not in the
repository).  Per the spec it is "based on character-class composition
and length": the base is the total size of the character classes
present in the passphrase. -/
def classBase (p : Bytes) : Nat :=
  (if p.any isLowerByte then 26 else 0) +
  (if p.any isUpperByte then 26 else 0) +
  (if p.any isDigitByte then 10 else 0) +
  (if p.any (fun c => !(isLowerByte c || isUpperByte c || isDigitByte c))
   then 33 else 0)

/-- Modelled from the spec: estimated entropy `length × log2 base` is
at least 60 bits iff `base ^ length ≥ 2 ^ 60` (exact, integer form). -/
def entropyAtLeast60 (p : Bytes) : Bool := 2 ^ 60 ≤ classBase p ^ p.length

/-- `encrypt.ValidatePassword`: rejects iff the estimated entropy is
below the 60-bit floor. -/
def ValidatePassword (p : Bytes) : Bool := entropyAtLeast60 p

/-- `cmd._validatePassphrase`: the explicit 8-character floor, then the
entropy floor. -/
def validatePassphraseCmd (p : Bytes) : Except GErr Unit :=
  if p.length < 8 then .error .weakPassphrase
  else if ValidatePassword p then .ok () else .error .weakPassphrase

/-- The `gaia init` command: refuse when the database file exists, run
the passphrase form (which enforces `_validatePassphrase`), then create
the database.  The second component is the database file afterwards. -/
def initCmdFlow (kdf : Bytes → Bytes → Bytes) (hashFn : Bytes → Bytes)
    (salt timestamp : Bytes) (existing : Option DB) (passphrase : Bytes) :
    Except GErr Unit × Option DB :=
  match existing with
  | some db => (.error .alreadyInitialized, some db)
  | none =>
      match validatePassphraseCmd passphrase with
      | .error e => (.error e, none)
      | .ok () =>
          match Daemon.InitializeDB kdf hashFn salt timestamp none passphrase with
          | .error e => (.error e, none)
          | .ok db => (.ok (), some db)

/-! ## Observation helpers and witness fixtures -/

/-- The stored (encrypted) value under a secrets-bucket key, observed
through the daemon state. -/
def storedSecret (d : Daemon) (k : Bytes) : Option Bytes :=
  match d.db with
  | none => none
  | some db =>
      match db.secrets with
      | none => none
      | some b => bget b k

/-- Concrete stand-in for scrypt in witnesses. -/
def kdfW : Bytes → Bytes → Bytes := fun p s => p ++ s

/-- Concrete stand-in for SHA-256 in witnesses. -/
def hashW : Bytes → Bytes := fun k => 255 :: k

/-- A 32-byte key for witnesses. -/
def keyW : Bytes := List.replicate 32 0

/-- A 12-byte nonce for witnesses. -/
def nonceW : Bytes := List.replicate 12 1

/-! ## Claims -/

/-- C9: for every 32-byte key and plaintext, decrypting an encryption
under the same key returns the plaintext, for any nonce freshly drawn
during encryption.  The hypotheses on `g` are the `crypto/cipher` GCM
contract at the point of use: `Open` inverts `Seal` for the same key
and nonce, and sealed output is made of bytes. -/
theorem claim_C9 (g : AEAD) (key nonce m : Bytes)
    (hkey : key.length = 32) (hnonce : nonce.length = 12)
    (hbytes : ∀ b ∈ nonce ++ g.sealGCM key nonce m, b < 256)
    (hopen : g.openGCM key nonce (g.sealGCM key nonce m) = some m) :
    (Encrypt g nonce key m).bind (fun enc => Decrypt g key enc) = .ok m := by
  have hk3 : key.length = 16 ∨ key.length = 24 ∨ key.length = 32 :=
    Or.inr (Or.inr hkey)
  have henc : Encrypt g nonce key m =
      .ok (b64encode (nonce ++ g.sealGCM key nonce m)) := by
    simp [Encrypt, hk3]
  rw [henc]
  show Decrypt g key (b64encode (nonce ++ g.sealGCM key nonce m)) = .ok m
  have hrt := b64_roundtrip _ hbytes
  have hlen : ¬ (nonce.length + (g.sealGCM key nonce m).length < gcmNonceSize) := by
    rw [hnonce]; simp [gcmNonceSize]
  have h12 : gcmNonceSize = nonce.length := by rw [hnonce]; rfl
  have htake : (nonce ++ g.sealGCM key nonce m).take gcmNonceSize = nonce := by
    rw [h12]; exact List.take_left _ _
  have hdrop : (nonce ++ g.sealGCM key nonce m).drop gcmNonceSize =
      g.sealGCM key nonce m := by
    rw [h12]; exact List.drop_left _ _
  simp [Decrypt, hrt, hk3, hlen, htake, hdrop, hopen]

/-- C9 witness: the round-trip evaluated at a concrete key, nonce and
plaintext. -/
theorem claim_C9_witness :
    (Encrypt toyAEAD nonceW keyW [5, 6]).bind
      (fun enc => Decrypt toyAEAD keyW enc) = .ok [5, 6] :=
  claim_C9 toyAEAD keyW nonceW [5, 6] (by decide) (by decide)
    (by decide) (by decide)

/-- C3: the claim states that `Decrypt` fails with an error on every
base64-decodable input shorter than the 12-byte nonce.  The source
instead executes `return nil, err` on that branch with `err` still
nil, so the call succeeds with an empty plaintext: here the empty
string (which decodes to a 0-byte blob) yields `.ok []`, not an
error. -/
theorem claim_C3_short_input_bug :
    b64decode [] = some [] ∧ ([] : Bytes).length < gcmNonceSize ∧
    Decrypt toyAEAD keyW [] = .ok [] := by
  refine ⟨rfl, by decide, rfl⟩

/-- C10: on a daemon whose stop channel is still open, the first admin
`Stop` RPC replies `Success=true`, and a second `Stop` on the resulting
state panics (`close` of an already-closed channel), modelled as
`none`. -/
theorem claim_C10 (d : Daemon) (h : d.stopClosed = false) :
    adminStop d = some ({ d with stopClosed := true }, true) ∧
    adminStop { d with stopClosed := true } = none := by
  constructor <;> simp [adminStop, closeChan, h]

/-- C10 witness: both stops evaluated on a fresh daemon. -/
theorem claim_C10_witness :
    adminStop NewDaemon = some ({ NewDaemon with stopClosed := true }, true) ∧
    adminStop { NewDaemon with stopClosed := true } = none :=
  claim_C10 NewDaemon rfl

/-- An empty two-bucket database for witnesses. -/
def dbW : DB := { secrets := some [], clients := some [] }

/-- An unlocked daemon over `dbW` for witnesses. -/
def dW : Daemon := { db := some dbW, key := keyW, isLocked := false,
                     stopClosed := false }

/-- C1: on a serving (unlocked, database-open) daemon, `GetSecret` for
a namespace that is neither `common` nor the caller's certificate CN
fails as unauthorized, whatever the store contains; an authorized call
proceeds to the lookup-and-decrypt tail at the key composed from the
literal `common` client when the namespace is `common`, and from the
caller's own client name otherwise.  The caller identity reaching
`Daemon.GetSecret` is always the peer-certificate CN
(`clientGetSecret`). -/
theorem claim_C1 (g : AEAD) (d : Daemon) (db : DB) (clientName namespc id : Bytes)
    (hunlocked : d.isLocked = false) (hdb : d.db = some db) :
    (namespc ≠ commonNamespace → namespc ≠ clientName →
        Daemon.GetSecret g d clientName namespc id = .error .unauthorized)
    ∧ (namespc = commonNamespace →
        Daemon.GetSecret g d clientName namespc id =
          fetchSecret g d.key db (constructDBKey commonNamespace namespc id))
    ∧ (namespc ≠ commonNamespace → namespc = clientName →
        Daemon.GetSecret g d clientName namespc id =
          fetchSecret g d.key db (constructDBKey clientName namespc id))
    ∧ (∀ cn, clientGetSecret g d (some cn) namespc id =
        Daemon.GetSecret g d cn namespc id) := by
  refine ⟨fun h1 h2 => ?_, fun h1 => ?_, fun h1 h2 => ?_, fun cn => rfl⟩
  · unfold Daemon.GetSecret
    rw [hdb, hunlocked]
    simp [h1, h2]
  · unfold Daemon.GetSecret
    rw [hdb, hunlocked]
    simp [h1]
  · subst h2
    unfold Daemon.GetSecret
    rw [hdb, hunlocked]
    simp [h1]

/-- C1 witness: client `web-a` asking for namespace `web-b` is turned
away unauthorized even though the daemon is unlocked. -/
theorem claim_C1_witness :
    Daemon.GetSecret toyAEAD dW (strBytes "web-a") (strBytes "web-b")
      (strBytes "x") = .error .unauthorized :=
  (claim_C1 toyAEAD dW dbW (strBytes "web-a") (strBytes "web-b")
    (strBytes "x") rfl rfl).1 (by decide) (by decide)

/-- The operator passphrase used in witnesses. -/
def passW : Bytes := strBytes "correct horse"

/-- An on-disk database whose stored key hash matches `passW` under
`kdfW`/`hashW`. -/
def diskW : DB :=
  { secrets := some [(saltKey, [9]), (keyHashKey, hashW (kdfW passW [9]))],
    clients := some [] }

/-- A daemon that is already unlocked with the key derived from
`passW`. -/
def dWunlocked : Daemon :=
  { db := some diskW, key := kdfW passW [9], isLocked := false,
    stopClosed := false }

/-- C7 counterexample: the claim says a further `Unlock` on an
already-unlocked daemon is rejected.  It is not: `gaiaAdminServer.Unlock`
calls `UnlockDB` with no state check, and with the correct passphrase
the call succeeds again. -/
theorem claim_C7_counterexample :
    dWunlocked.isLocked = false ∧
    (adminUnlock kdfW hashW diskW true dWunlocked passW).1 = .ok true := by
  exact ⟨rfl, rfl⟩

/-- C7 amended: `Unlock` is not gated on the locked state — `UnlockDB`
re-runs key derivation from any state, including an already-unlocked
one, and succeeds whenever the derived key hashes to the stored hash
(and the CA material loads). -/
theorem claim_C7_amended (kdf : Bytes → Bytes → Bytes) (hashFn : Bytes → Bytes)
    (disk : DB) (d : Daemon) (pass salt storedHash : Bytes)
    (b : List (Bytes × Bytes))
    (hb : disk.secrets = some b)
    (hsalt : bget b saltKey = some salt)
    (hhash : bget b keyHashKey = some storedHash)
    (hmatch : hashFn (kdf pass salt) = storedHash) :
    adminUnlock kdf hashFn disk true d pass =
      (.ok true, { d with db := some disk, key := kdf pass salt,
                          isLocked := false }) := by
  unfold adminUnlock Daemon.UnlockDB
  rw [hb]
  simp [hsalt, hhash, hmatch]

/-- C7 amended witness: the very `Unlock` of the counterexample,
with its full post-state. -/
theorem claim_C7_amended_witness :
    adminUnlock kdfW hashW diskW true dWunlocked passW =
      (.ok true, { dWunlocked with db := some diskW, key := kdfW passW [9],
                                   isLocked := false }) :=
  claim_C7_amended kdfW hashW diskW dWunlocked passW [9]
    (hashW (kdfW passW [9])) _ rfl rfl rfl rfl

/-- C5 counterexample: the claim says a secret write for a client
absent from the `clients` bucket fails and leaves the secrets bucket
unchanged.  On an unlocked daemon whose `clients` bucket is empty,
`AddSecret` for the unregistered client `web` succeeds and stores the
secret: no registration check exists on the write path. -/
theorem claim_C5_counterexample :
    dbW.clients = some [] ∧
    storedSecret dW
      (constructDBKey (strBytes "web") (strBytes "ns") (strBytes "id")) = none ∧
    (Daemon.AddSecret toyAEAD nonceW dW (strBytes "web") (strBytes "ns")
      (strBytes "id") (strBytes "v")).1 = .ok () ∧
    (storedSecret (Daemon.AddSecret toyAEAD nonceW dW (strBytes "web")
        (strBytes "ns") (strBytes "id") (strBytes "v")).2
      (constructDBKey (strBytes "web") (strBytes "ns")
        (strBytes "id"))).isSome = true := by
  exact ⟨rfl, rfl, rfl, rfl⟩

/-- C5 amended: neither `AddSecret` nor `ImportSecrets` consults the
`clients` bucket — on an unlocked daemon a write keyed `(c, n, i)`
succeeds and stores the envelope even when `c` is not registered. -/
theorem claim_C5_amended (g : AEAD) (nonce : Bytes) (d : Daemon) (db : DB)
    (cb : List (Bytes × Bytes)) (c n i v : Bytes)
    (hdb : d.db = some db) (hunlocked : d.isLocked = false)
    (hkey : d.key.length = 32)
    (_hcb : db.clients = some cb) (_hunreg : bget cb c = none) :
    (Daemon.AddSecret g nonce d c n i v).1 = .ok () ∧
    storedSecret (Daemon.AddSecret g nonce d c n i v).2 (constructDBKey c n i) =
      some (b64encode (nonce ++ g.sealGCM d.key nonce v)) ∧
    (∀ nonces : Nat → Bytes,
      (Daemon.ImportSecrets g nonces d [⟨c, n, i, v⟩] true).1 = .ok 1) := by
  have hk3 : d.key.length = 16 ∨ d.key.length = 24 ∨ d.key.length = 32 :=
    Or.inr (Or.inr hkey)
  have hguard : ¬ (d.isLocked = true ∨ d.db = none) := by
    simp [hunlocked, hdb]
  refine ⟨?_, ?_, ?_⟩
  · unfold Daemon.AddSecret
    rw [hdb]
    simp [hunlocked, Encrypt, hk3]
  · unfold Daemon.AddSecret
    rw [hdb]
    simp [hunlocked, Encrypt, hk3, storedSecret, bget_bput_self]
  · intro nonces
    unfold Daemon.ImportSecrets
    rw [hdb]
    simp [hunlocked, importLoop, Encrypt, hk3]

/-- C5 amended witness: the unregistered-client write of the
counterexample, with the stored envelope spelled out. -/
theorem claim_C5_amended_witness :
    (Daemon.AddSecret toyAEAD nonceW dW (strBytes "web") (strBytes "ns")
      (strBytes "id") (strBytes "v")).1 = .ok () ∧
    storedSecret (Daemon.AddSecret toyAEAD nonceW dW (strBytes "web")
        (strBytes "ns") (strBytes "id") (strBytes "v")).2
      (constructDBKey (strBytes "web") (strBytes "ns") (strBytes "id")) =
      some (b64encode (nonceW ++ toyAEAD.sealGCM dW.key nonceW (strBytes "v"))) ∧
    (∀ nonces : Nat → Bytes,
      (Daemon.ImportSecrets toyAEAD nonces dW
        [⟨strBytes "web", strBytes "ns", strBytes "id", strBytes "v"⟩]
        true).1 = .ok 1) :=
  claim_C5_amended toyAEAD nonceW dW dbW [] (strBytes "web") (strBytes "ns")
    (strBytes "id") (strBytes "v") rfl rfl (by decide) rfl rfl

/-- The import loop counts exactly one per item processed. -/
theorem importLoop_count (g : AEAD) (key : Bytes) (overwrite : Bool)
    (nonces : Nat → Bytes) (items : List ImportSecretItem) :
    ∀ (count : Nat) (b b' : List (Bytes × Bytes)) (n : Nat),
      importLoop g key overwrite nonces items count b = .ok (b', n) →
      n = count + items.length := by
  induction items with
  | nil =>
      intro count b b' n h
      simp [importLoop] at h
      simp only [List.length_nil]
      omega
  | cons item rest ih =>
      intro count b b' n h
      unfold importLoop at h
      by_cases hc : overwrite = false ∧
          (bget b (constructDBKey item.clientName item.namespc item.id)).isSome
      · rw [if_pos hc] at h
        exact absurd h (by simp)
      · rw [if_neg hc] at h
        cases hE : Encrypt g (nonces count) key item.value with
        | error e => rw [hE] at h; exact absurd h (by simp)
        | ok encValue =>
            rw [hE] at h
            have := ih (count + 1) _ b' n h
            simp [List.length_cons]
            omega

/-- If some item's composed key is already present in the bucket the
loop starts from and `overwrite` is off, the loop errors out. -/
theorem importLoop_conflict (g : AEAD) (key : Bytes) (nonces : Nat → Bytes)
    (items : List ImportSecretItem) :
    ∀ (count : Nat) (b : List (Bytes × Bytes)),
      (∃ s ∈ items, (bget b (constructDBKey s.clientName s.namespc s.id)).isSome) →
      ∃ e, importLoop g key false nonces items count b = .error e := by
  induction items with
  | nil =>
      intro count b h
      simp at h
  | cons item rest ih =>
      intro count b h
      obtain ⟨s, hs, hsome⟩ := h
      by_cases hc :
          (bget b (constructDBKey item.clientName item.namespc item.id)).isSome
      · exact ⟨.conflict, by simp [importLoop, hc]⟩
      · cases hE : Encrypt g (nonces count) key item.value with
        | error e => exact ⟨.encryptFailed, by simp [importLoop, hc, hE]⟩
        | ok encValue =>
            rcases List.mem_cons.mp hs with hsi | hsr
            · subst hsi; exact absurd hsome hc
            · obtain ⟨e, he⟩ := ih (count + 1)
                (bput b (constructDBKey item.clientName item.namespc item.id)
                  encValue)
                ⟨s, hsr, bget_bput_isSome _ _ _ _ hsome⟩
              exact ⟨e, by simp [importLoop, hc, hE, he]⟩

/-- C2: `ImportSecrets` is all-or-nothing.  Any failing call leaves the
state exactly as before; with `overwrite=false` a pre-existing composed
key among the items makes the call fail; a successful call reports a
count equal to the number of items written. -/
theorem claim_C2 (g : AEAD) (nonces : Nat → Bytes) (d : Daemon) (db : DB)
    (secrets : List ImportSecretItem) (overwrite : Bool) :
    (∀ e, (Daemon.ImportSecrets g nonces d secrets overwrite).1 = .error e →
        (Daemon.ImportSecrets g nonces d secrets overwrite).2 = d)
    ∧ (overwrite = false → d.db = some db →
        (∃ s ∈ secrets, (bget (db.secrets.getD [])
            (constructDBKey s.clientName s.namespc s.id)).isSome) →
        ∃ e, (Daemon.ImportSecrets g nonces d secrets overwrite).1 = .error e)
    ∧ (∀ n, (Daemon.ImportSecrets g nonces d secrets overwrite).1 = .ok n →
        n = secrets.length) := by
  by_cases hg : d.isLocked = true ∨ d.db = none
  · refine ⟨?_, ?_, ?_⟩
    · intro e _
      simp [Daemon.ImportSecrets, hg]
    · intro _ _ _
      exact ⟨.daemonLocked, by simp [Daemon.ImportSecrets, hg]⟩
    · intro n h
      simp [Daemon.ImportSecrets, hg] at h
  · obtain ⟨db0, hdb0⟩ : ∃ db0, d.db = some db0 := by
      cases hO : d.db with
      | none => exact absurd (Or.inr hO) hg
      | some dbx => exact ⟨dbx, rfl⟩
    have hlock : d.isLocked = false := by
      rcases not_or.mp hg with ⟨h1, _⟩
      simp at h1
      exact h1
    refine ⟨?_, ?_, ?_⟩
    · intro e h
      cases hL : importLoop g d.key overwrite nonces secrets 0
          (db0.secrets.getD []) with
      | error e' => simp [Daemon.ImportSecrets, hg, hdb0, hlock, hL]
      | ok r =>
          exfalso
          simp [Daemon.ImportSecrets, hg, hdb0, hlock, hL] at h
    · intro hov hdbeq hex
      rw [hdb0] at hdbeq
      injection hdbeq with hdbeq
      subst hdbeq
      subst hov
      obtain ⟨e, he⟩ := importLoop_conflict g d.key nonces secrets 0
        (db0.secrets.getD []) hex
      exact ⟨e, by simp [Daemon.ImportSecrets, hg, hdb0, hlock, he]⟩
    · intro n h
      cases hL : importLoop g d.key overwrite nonces secrets 0
          (db0.secrets.getD []) with
      | error e' => simp [Daemon.ImportSecrets, hg, hdb0, hlock, hL] at h
      | ok r =>
          obtain ⟨b', n'⟩ := r
          simp [Daemon.ImportSecrets, hg, hdb0, hlock, hL] at h
          have := importLoop_count g d.key overwrite nonces secrets 0
            (db0.secrets.getD []) b' n' hL
          omega

/-- A database holding one stored secret under `web\x00web\x00k` for
the C2 witness. -/
def dbWfull : DB :=
  { secrets := some
      [(constructDBKey (strBytes "web") (strBytes "web") (strBytes "k"),
        [1, 2, 3])],
    clients := some [(strBytes "web", strBytes "2024-01-01T00:00:00Z")] }

/-- An unlocked daemon over `dbWfull`. -/
def dWfull : Daemon :=
  { db := some dbWfull, key := keyW, isLocked := false, stopClosed := false }

/-- A two-item batch whose second item collides with the secret stored
in `dbWfull`. -/
def importBatchW : List ImportSecretItem :=
  [⟨strBytes "other", strBytes "other", strBytes "a", strBytes "v1"⟩,
   ⟨strBytes "web", strBytes "web", strBytes "k", strBytes "v2"⟩]

/-- C2 witness: a two-item batch whose second item collides with a
stored secret, with `overwrite=false`: the call errors and the
post-state is the pre-state. -/
theorem claim_C2_witness :
    (∃ e, (Daemon.ImportSecrets toyAEAD (fun _ => nonceW) dWfull
        importBatchW false).1 = .error e) ∧
    (∀ e, (Daemon.ImportSecrets toyAEAD (fun _ => nonceW) dWfull
        importBatchW false).1 = .error e →
      (Daemon.ImportSecrets toyAEAD (fun _ => nonceW) dWfull
        importBatchW false).2 = dWfull) :=
  ⟨(claim_C2 toyAEAD (fun _ => nonceW) dWfull dbWfull importBatchW false).2.1
      rfl rfl
      ⟨⟨strBytes "web", strBytes "web", strBytes "k", strBytes "v2"⟩,
        by decide, by decide⟩,
    fun e h => (claim_C2 toyAEAD (fun _ => nonceW) dWfull dbWfull
      importBatchW false).1 e h⟩

/-- Every composed secret key contains a NUL delimiter. -/
theorem zero_mem_constructDBKey (c n i : Bytes) :
    (0 : Nat) ∈ constructDBKey c n i := by
  simp [constructDBKey]

/-- The reserved salt key contains no NUL byte. -/
theorem zero_not_mem_saltKey : (0 : Nat) ∉ saltKey := by decide

/-- The reserved key-hash key contains no NUL byte. -/
theorem zero_not_mem_keyHashKey : (0 : Nat) ∉ keyHashKey := by decide

/-- A filter whose predicate depends only on the key and keeps `k`
leaves the binding of `k` unchanged. -/
theorem bget_filter_key (p : Bytes → Bool) (k : Bytes) (hp : p k = true) :
    ∀ b : List (Bytes × Bytes),
      bget (b.filter (fun kv => p kv.1)) k = bget b k := by
  intro b
  induction b with
  | nil => simp [bget]
  | cons hd tl ih =>
      obtain ⟨hk, hv⟩ := hd
      by_cases h2 : k = hk
      · subst h2
        simp [List.filter_cons, hp, bget]
      · by_cases h3 : p hk
        · simp [List.filter_cons, h3, bget, h2, ih]
        · simp [List.filter_cons, h3, bget, h2, ih]

/-- The import loop writes only at composed keys: any key without a
NUL byte keeps its binding. -/
theorem importLoop_preserves (g : AEAD) (key : Bytes) (overwrite : Bool)
    (nonces : Nat → Bytes) (k : Bytes) (hk : (0 : Nat) ∉ k)
    (items : List ImportSecretItem) :
    ∀ count b b' n, importLoop g key overwrite nonces items count b = .ok (b', n) →
      bget b' k = bget b k := by
  induction items with
  | nil =>
      intro count b b' n h
      simp [importLoop] at h
      rw [h.1]
  | cons item rest ih =>
      intro count b b' n h
      unfold importLoop at h
      by_cases hc : overwrite = false ∧
          (bget b (constructDBKey item.clientName item.namespc item.id)).isSome
      · rw [if_pos hc] at h
        exact absurd h (by simp)
      · rw [if_neg hc] at h
        cases hE : Encrypt g (nonces count) key item.value with
        | error e => rw [hE] at h; exact absurd h (by simp)
        | ok encValue =>
            rw [hE] at h
            have hne : k ≠ constructDBKey item.clientName item.namespc item.id :=
              fun he => hk (he ▸ zero_mem_constructDBKey _ _ _)
            rw [ih (count + 1) _ b' n h, bget_bput_ne _ _ _ _ hne]

/-- `AddSecret` can only write at a composed key. -/
theorem AddSecret_preserves (g : AEAD) (nonce : Bytes) (d : Daemon)
    (c n i v k : Bytes) (hk : (0 : Nat) ∉ k) :
    storedSecret (Daemon.AddSecret g nonce d c n i v).2 k = storedSecret d k := by
  have hne : k ≠ constructDBKey c n i :=
    fun h => hk (h ▸ zero_mem_constructDBKey c n i)
  by_cases hg : d.isLocked = true ∨ d.db = none
  · simp [Daemon.AddSecret, hg]
  · have hlock : d.isLocked = false := by
      rcases not_or.mp hg with ⟨h1, _⟩
      simp at h1
      exact h1
    cases hdb : d.db with
    | none => exact absurd (Or.inr hdb) hg
    | some db =>
        cases hE : Encrypt g nonce d.key v with
        | error e => simp [Daemon.AddSecret, hlock, hdb, hE]
        | ok encValue =>
            cases hs : db.secrets with
            | none =>
                simp [Daemon.AddSecret, storedSecret, hlock, hdb, hE, hs,
                  bget_bput_ne _ _ _ _ hne, bget, hne]
            | some b =>
                simp [Daemon.AddSecret, storedSecret, hlock, hdb, hE, hs,
                  bget_bput_ne _ _ _ _ hne]

/-- `DeleteSecret` can only delete at a composed key. -/
theorem DeleteSecret_preserves (d : Daemon) (c n i k : Bytes)
    (hk : (0 : Nat) ∉ k) :
    storedSecret (Daemon.DeleteSecret d c n i).2 k = storedSecret d k := by
  have hne : k ≠ constructDBKey c n i :=
    fun h => hk (h ▸ zero_mem_constructDBKey c n i)
  by_cases hg : d.isLocked = true ∨ d.db = none
  · simp [Daemon.DeleteSecret, hg]
  · have hlock : d.isLocked = false := by
      rcases not_or.mp hg with ⟨h1, _⟩
      simp at h1
      exact h1
    cases hdb : d.db with
    | none => exact absurd (Or.inr hdb) hg
    | some db =>
        cases hs : db.secrets with
        | none => simp [Daemon.DeleteSecret, storedSecret, hlock, hdb, hs]
        | some b =>
            simp [Daemon.DeleteSecret, storedSecret, hlock, hdb, hs,
              bget_bdel_ne _ _ _ hne]

/-- `ImportSecrets` can only write at composed keys. -/
theorem ImportSecrets_preserves (g : AEAD) (nonces : Nat → Bytes) (d : Daemon)
    (items : List ImportSecretItem) (overwrite : Bool) (k : Bytes)
    (hk : (0 : Nat) ∉ k) :
    storedSecret (Daemon.ImportSecrets g nonces d items overwrite).2 k =
      storedSecret d k := by
  by_cases hg : d.isLocked = true ∨ d.db = none
  · simp [Daemon.ImportSecrets, hg]
  · have hlock : d.isLocked = false := by
      rcases not_or.mp hg with ⟨h1, _⟩
      simp at h1
      exact h1
    cases hdb : d.db with
    | none => exact absurd (Or.inr hdb) hg
    | some db =>
        cases hL : importLoop g d.key overwrite nonces items 0
            (db.secrets.getD []) with
        | error e => simp [Daemon.ImportSecrets, hlock, hdb, hL]
        | ok r =>
            obtain ⟨b', cnt⟩ := r
            have hpres := importLoop_preserves g d.key overwrite nonces k hk
              items 0 (db.secrets.getD []) b' cnt hL
            cases hs : db.secrets with
            | none =>
                rw [hs] at hpres hL
                simp only [Option.getD_none] at hpres hL
                simp [Daemon.ImportSecrets, storedSecret, hlock, hdb, hL, hs,
                  hpres, bget]
            | some b =>
                rw [hs] at hpres hL
                simp only [Option.getD_some] at hpres hL
                simp [Daemon.ImportSecrets, storedSecret, hlock, hdb, hL, hs,
                  hpres]

/-- `RevokeClient` deletes only keys that start with
`clientName ‖ 0x00`; a key without a NUL byte is kept. -/
theorem RevokeClient_preserves (d : Daemon) (cname k : Bytes)
    (hk : (0 : Nat) ∉ k) :
    storedSecret (Daemon.RevokeClient d cname).2 k = storedSecret d k := by
  have hp : ((cname ++ [0]).isPrefixOf k) = false := by
    by_contra hcon
    have h1 : (cname ++ [0]).isPrefixOf k = true := by
      simpa using hcon
    have hpre : (cname ++ [0]) <+: k := by
      exact List.isPrefixOf_iff_prefix.mp h1
    exact hk (hpre.subset (by simp))
  by_cases hg : d.isLocked = true ∨ d.db = none
  · simp [Daemon.RevokeClient, hg]
  · have hlock : d.isLocked = false := by
      rcases not_or.mp hg with ⟨h1, _⟩
      simp at h1
      exact h1
    cases hdb : d.db with
    | none => exact absurd (Or.inr hdb) hg
    | some db =>
        cases hs : db.secrets with
        | none => simp [Daemon.RevokeClient, storedSecret, hlock, hdb, hs]
        | some b =>
            have hf := bget_filter_key
              (fun key => !(cname ++ [0]).isPrefixOf key) k (by simp [hp]) b
            simp [Daemon.RevokeClient, storedSecret, hlock, hdb, hs, hf]

/-- C8: the reserved `salt` and `key_hash` entries are written at
`Init` — which refuses to run when the database file already exists —
and no write or delete path can touch them afterwards: every composed
secret key (and every revocation prefix) contains a NUL byte, the
reserved keys contain none. -/
theorem claim_C8 (kdf : Bytes → Bytes → Bytes) (hashFn : Bytes → Bytes)
    (salt ts pass : Bytes) (db : DB) (g : AEAD) (nonce : Bytes) (d : Daemon)
    (c n i v cname : Bytes) (nonces : Nat → Bytes)
    (items : List ImportSecretItem) (overwrite : Bool) :
    Daemon.InitializeDB kdf hashFn salt ts (some db) pass =
      .error .alreadyInitialized
    ∧ (Daemon.InitializeDB kdf hashFn salt ts none pass).map
        (fun db' => bget (db'.secrets.getD []) saltKey) = .ok (some salt)
    ∧ (Daemon.InitializeDB kdf hashFn salt ts none pass).map
        (fun db' => bget (db'.secrets.getD []) keyHashKey) =
        .ok (some (hashFn (kdf pass salt)))
    ∧ constructDBKey c n i ≠ saltKey
    ∧ constructDBKey c n i ≠ keyHashKey
    ∧ storedSecret (Daemon.AddSecret g nonce d c n i v).2 saltKey =
        storedSecret d saltKey
    ∧ storedSecret (Daemon.AddSecret g nonce d c n i v).2 keyHashKey =
        storedSecret d keyHashKey
    ∧ storedSecret (Daemon.DeleteSecret d c n i).2 saltKey =
        storedSecret d saltKey
    ∧ storedSecret (Daemon.DeleteSecret d c n i).2 keyHashKey =
        storedSecret d keyHashKey
    ∧ storedSecret (Daemon.ImportSecrets g nonces d items overwrite).2 saltKey =
        storedSecret d saltKey
    ∧ storedSecret (Daemon.ImportSecrets g nonces d items overwrite).2 keyHashKey =
        storedSecret d keyHashKey
    ∧ storedSecret (Daemon.RevokeClient d cname).2 saltKey =
        storedSecret d saltKey
    ∧ storedSecret (Daemon.RevokeClient d cname).2 keyHashKey =
        storedSecret d keyHashKey := by
  have hsk : saltKey ≠ keyHashKey := by decide
  refine ⟨rfl, ?_, ?_, ?_, ?_, ?_, ?_, ?_, ?_, ?_, ?_, ?_, ?_⟩
  · simp [Daemon.InitializeDB, Except.map, bget_bput_ne _ _ _ _ hsk,
      bget_bput_self]
  · simp [Daemon.InitializeDB, Except.map, bget_bput_self]
  · exact fun h => zero_not_mem_saltKey (h ▸ zero_mem_constructDBKey c n i)
  · exact fun h => zero_not_mem_keyHashKey (h ▸ zero_mem_constructDBKey c n i)
  · exact AddSecret_preserves g nonce d c n i v saltKey zero_not_mem_saltKey
  · exact AddSecret_preserves g nonce d c n i v keyHashKey zero_not_mem_keyHashKey
  · exact DeleteSecret_preserves d c n i saltKey zero_not_mem_saltKey
  · exact DeleteSecret_preserves d c n i keyHashKey zero_not_mem_keyHashKey
  · exact ImportSecrets_preserves g nonces d items overwrite saltKey
      zero_not_mem_saltKey
  · exact ImportSecrets_preserves g nonces d items overwrite keyHashKey
      zero_not_mem_keyHashKey
  · exact RevokeClient_preserves d cname saltKey zero_not_mem_saltKey
  · exact RevokeClient_preserves d cname keyHashKey zero_not_mem_keyHashKey

/-- `all` over a non-empty list splits into its `dropLast` and its last
element. -/
theorem all_eq_dropLast_getLast (p : Nat → Bool) (l : Bytes) (h : l ≠ []) :
    l.all p = (l.dropLast.all p && p (l.getLast h)) := by
  conv_lhs => rw [← List.dropLast_append_getLast h]
  simp [List.all_append]

/-- `ValidateName` accepts exactly the names the spec's grammar
describes. -/
theorem ValidateName_spec (name : Bytes) :
    ValidateName name = true ↔ specGoodName name = true := by
  match name with
  | [] => simp [ValidateName, specGoodName]
  | [c] =>
      simp [ValidateName, specGoodName, isNameMid]
      exact fun h => Or.inl (Or.inl h)
  | c :: c2 :: rest =>
      have hne : (c2 :: rest) ≠ [] := by simp
      have hlast : (c2 :: rest).getLast? = some ((c2 :: rest).getLast hne) :=
        List.getLast?_eq_getLast _ hne
      have hlen : (decide ((c2 :: rest).length ≤ 62) = true) ↔
          (decide ((c :: c2 :: rest).length ≤ 63) = true) := by
        simp
      simp only [ValidateName, specGoodName, hlast, List.head?_cons,
        List.getLast?_cons_cons, List.all_cons,
        all_eq_dropLast_getLast isNameMid (c2 :: rest) hne,
        Bool.and_eq_true, Option.elim]
      simp only [Bool.and_eq_true] at *
      have hmidc : isLowerOrDigit c = true → isNameMid c = true := by
        intro h
        simp [isNameMid, h]
      have hmidl : isLowerOrDigit ((c2 :: rest).getLast hne) = true →
          isNameMid ((c2 :: rest).getLast hne) = true := by
        intro h
        simp [isNameMid, h]
      have h1 : decide (1 ≤ (c :: c2 :: rest).length) = true := by simp
      constructor
      · rintro ⟨⟨⟨hc, hlen62⟩, hdrop⟩, hlastL⟩
        exact ⟨⟨⟨⟨h1, hlen.mp hlen62⟩, hmidc hc, hdrop, hmidl hlastL⟩, hc⟩, hlastL⟩
      · rintro ⟨⟨⟨⟨_, hlen63⟩, _, hdrop, _⟩, hc⟩, hlastL⟩
        exact ⟨⟨⟨hc, hlen.mpr hlen63⟩, hdrop⟩, hlastL⟩

/-- C4 counterexample: the claim says every write point rejects
grammar-invalid identifiers (in particular, identifiers of length 0
and 64); but no write path ever calls `ValidateName` — on an unlocked
daemon an `AddSecret` with an empty client name succeeds (its composed
key still contains the NUL delimiters, so bbolt accepts it), and a
`RegisterClient` with a 64-character name succeeds. -/
theorem claim_C4_counterexample :
    ValidateName [] = false ∧
    (Daemon.AddSecret toyAEAD nonceW dW [] (strBytes "ns") (strBytes "id")
      (strBytes "v")).1 = .ok () ∧
    ValidateName (List.replicate 64 97) = false ∧
    (Daemon.RegisterClient dW (strBytes "2024-01-01T00:00:00Z")
      (List.replicate 64 97)).1 = .ok () := by
  exact ⟨rfl, rfl, by decide, rfl⟩

/-- C4 amended: `validation.ValidateName` accepts exactly the spec's
identifier grammar (1–63 chars of `[a-z0-9_-]` with alphanumeric
ends), but none of the write operations invokes it: on an unlocked
daemon `AddSecret` and `ImportSecrets` succeed for arbitrary client,
namespace and id components (their composed keys are never blank), and
`RegisterClient` succeeds for every non-empty name however
grammar-invalid; a blank `RegisterClient` name is rejected only by
bbolt's `ErrKeyRequired` storage check, not by the grammar. -/
theorem claim_C4_amended (name : Bytes) (g : AEAD) (nonce ts : Bytes)
    (nonces : Nat → Bytes) (d : Daemon) (db : DB) (c n i v cr : Bytes)
    (hdb : d.db = some db) (hunlocked : d.isLocked = false)
    (hkey : d.key.length = 32) (hcr : cr ≠ []) :
    (ValidateName name = true ↔ specGoodName name = true)
    ∧ (Daemon.AddSecret g nonce d c n i v).1 = .ok ()
    ∧ (Daemon.RegisterClient d ts cr).1 = .ok ()
    ∧ (Daemon.ImportSecrets g nonces d [⟨c, n, i, v⟩] true).1 = .ok 1
    ∧ (Daemon.RegisterClient d ts []).1 = .error .keyRequired := by
  have hk3 : d.key.length = 16 ∨ d.key.length = 24 ∨ d.key.length = 32 :=
    Or.inr (Or.inr hkey)
  refine ⟨ValidateName_spec name, ?_, ?_, ?_, ?_⟩
  · unfold Daemon.AddSecret
    rw [hdb]
    simp [hunlocked, Encrypt, hk3]
  · unfold Daemon.RegisterClient
    rw [hdb]
    simp [hunlocked, hcr]
  · unfold Daemon.ImportSecrets
    rw [hdb]
    simp [hunlocked, importLoop, Encrypt, hk3]
  · unfold Daemon.RegisterClient
    rw [hdb]
    simp [hunlocked]

/-- C4 amended witness: `A B` (space, uppercase — invalid) is written
and registered without complaint, while the blank name is refused only
by the storage layer; `-bad-` is classified identically by
`ValidateName` and the spec grammar. -/
theorem claim_C4_amended_witness :
    (ValidateName (strBytes "-bad-") = true ↔
      specGoodName (strBytes "-bad-") = true)
    ∧ (Daemon.AddSecret toyAEAD nonceW dW (strBytes "A B") (strBytes "ns")
        (strBytes "id") (strBytes "v")).1 = .ok ()
    ∧ (Daemon.RegisterClient dW (strBytes "ts") (strBytes "A B")).1 = .ok ()
    ∧ (Daemon.ImportSecrets toyAEAD (fun _ => nonceW) dW
        [⟨strBytes "A B", strBytes "ns", strBytes "id", strBytes "v"⟩]
        true).1 = .ok 1
    ∧ (Daemon.RegisterClient dW (strBytes "ts") []).1 = .error .keyRequired :=
  claim_C4_amended (strBytes "-bad-") toyAEAD nonceW (strBytes "ts")
    (fun _ => nonceW) dW dbW (strBytes "A B") (strBytes "ns") (strBytes "id")
    (strBytes "v") (strBytes "A B") rfl rfl (by decide) (by decide)

/-- C6: the `init` flow rejects with the weak-passphrase error whenever
the passphrase is shorter than 8 characters (the explicit floor in
`_validatePassphrase`) or its estimated entropy is below 60 bits
(`ValidatePassword`), and leaves no database file behind; in
particular `"password"` is rejected. -/
theorem claim_C6 (kdf : Bytes → Bytes → Bytes) (hashFn : Bytes → Bytes)
    (salt ts : Bytes) (p : Bytes)
    (h : p.length < 8 ∨ entropyAtLeast60 p = false) :
    initCmdFlow kdf hashFn salt ts none p = (.error .weakPassphrase, none)
    ∧ initCmdFlow kdf hashFn salt ts none (strBytes "password") =
        (.error .weakPassphrase, none) := by
  constructor
  · unfold initCmdFlow validatePassphraseCmd
    rcases h with h | h
    · simp [h]
    · by_cases hl : p.length < 8
      · simp [hl]
      · simp [hl, ValidatePassword, h]
  · have hp : entropyAtLeast60 (strBytes "password") = false := by decide
    have hl : ¬ (strBytes "password").length < 8 := by decide
    unfold initCmdFlow validatePassphraseCmd
    simp [hl, ValidatePassword, hp]

/-- C6 witness: `Init` with passphrase `"password"` fails weak and
creates nothing. -/
theorem claim_C6_witness :
    initCmdFlow kdfW hashW [0] [1] none (strBytes "password") =
      (.error .weakPassphrase, none) :=
  (claim_C6 kdfW hashW [0] [1] (strBytes "password")
    (Or.inr (by decide))).1

end Gaia
